import Mathlib

set_option maxRecDepth 4000

/-
Verification of the buffer/viewport/cursor core of a minimal terminal text
viewer. The data model and the operations are translated from the program
source (structures View, Text and Buffer and their methods); machine usize
arithmetic is modelled on Nat, with the one subtraction that can underflow
modelled as a checked subtraction returning Option, and the partial
operations (deleting at an index that must be in bounds) returning Option.
-/

namespace MiniRs

/-- View into the buffer: y is the first visible line, height how many lines
to draw. -/
structure View where
  y : Nat
  height : Nat

/-- View.adjust, translated from the source: scroll up when the line is above
the window, scroll down keeping the line as the last visible row when it is
below, otherwise leave the origin alone. Here line - height + 1 cannot
underflow since it is only taken when line is at least y + height. -/
def View.adjust (v : View) (line : Nat) : View :=
  if line < v.y then
    { v with y := line }
  else if line ≥ v.y + v.height then
    { v with y := line - v.height + 1 }
  else
    v

/-- The line store: cached total length, cached line count (called newlines in
the source) and the lines themselves, each without its terminator. -/
structure Text where
  length : Nat
  newlines : Nat
  text : List (List Char)

/-- Text.from_file, translated from the source loop over the reader's lines:
each line adds its length plus one for the newline, and one is trimmed at the
end unless nothing was read. The argument is the list of lines the reader
produces from the file. -/
def Text.from_file (ls : List (List Char)) : Text :=
  let length := (ls.map (fun l => l.length + 1)).sum
  { length := if length = 0 then 0 else length - 1
    newlines := ls.length
    text := ls }

/-- The loop body of Text.line_at, translated from the source: walk the lines
keeping the running (line, start, len) accumulators, advancing while the
position is strictly past start + len and stopping at the first line where it
is not. -/
def lineAtAux (p : Nat) : List (List Char) → Nat → Nat → Nat → Nat × Nat × Nat
  | [], line, start, len => (line, start, len)
  | l :: ls, line, start, _ =>
    if start + l.length < p then
      lineAtAux p ls (line + 1) (start + l.length + 1) l.length
    else
      (line, start, l.length)

/-- Text.line_at, translated from the source: resolve a point to the triple
(line index, line start offset, line length). -/
def Text.line_at (t : Text) (p : Nat) : Nat × Nat × Nat :=
  lineAtAux p t.text 0 0 0

/-- Text.delete_line, translated from the source. The source indexes
self.text[line] and calls Vec remove, both of which fault on an out of range
index, and subtracts the deleted line's length plus one from the cached
length, which faults on underflow; those faults are modelled as none. -/
def Text.delete_line (t : Text) (line : Nat) : Option Text :=
  if 0 < t.newlines then
    match (if t.newlines = 1 then some 0
           else match t.text.get? line with
                | some l =>
                  if l.length + 1 ≤ t.length then some (t.length - (l.length + 1)) else none
                | none => none) with
    | some newLen =>
      if line < t.text.length then
        some { length := newLen, newlines := t.newlines - 1, text := t.text.eraseIdx line }
      else
        none
    | none => none
  else
    some t

/-- The buffer: display name, source path, the point (a linear offset), the
view and the line store. -/
structure Buffer where
  name : List Char
  path : List Char
  point : Nat
  view : View
  data : Text

/-- Buffer.lines, translated from the source. -/
def Buffer.lines (b : Buffer) : Nat :=
  b.data.newlines

/-- Buffer.move_right, translated from the source. -/
def Buffer.move_right (b : Buffer) : Buffer :=
  let p := max 0 (min b.data.length (b.point + 1))
  { b with point := p, view := b.view.adjust (b.data.line_at p).1 }

/-- Buffer.move_left, translated from the source: the subtraction is guarded
by the positivity test. -/
def Buffer.move_left (b : Buffer) : Buffer :=
  let p := if 0 < b.point then max 0 (b.point - 1) else b.point
  { b with point := p, view := b.view.adjust (b.data.line_at p).1 }

/-- Buffer.move_end_of_line, translated from the source: jump to the current
line's start plus its length; the view is not adjusted. -/
def Buffer.move_end_of_line (b : Buffer) : Buffer :=
  { b with point := (b.data.line_at b.point).2.1 + (b.data.line_at b.point).2.2 }

/-- Buffer.move_start_of_line, translated from the source: jump to the current
line's start; the view is not adjusted. -/
def Buffer.move_start_of_line (b : Buffer) : Buffer :=
  { b with point := (b.data.line_at b.point).2.1 }

/-- Buffer.move_down, translated from the source. -/
def Buffer.move_down (b : Buffer) : Buffer :=
  let r := b.data.line_at b.point
  let p := min b.data.length (r.2.1 + r.2.2 + 1)
  { b with point := p, view := b.view.adjust (b.data.line_at p).1 }

/-- Buffer.move_up, translated from the source: when the current line starts
at 0 the point goes to 0, otherwise to the start of the line owning
start - 1 (the previous line). -/
def Buffer.move_up (b : Buffer) : Buffer :=
  let r := b.data.line_at b.point
  let p := if r.2.1 = 0 then 0 else (b.data.line_at (r.2.1 - 1)).2.1
  { b with point := p, view := b.view.adjust (b.data.line_at p).1 }

/-- Buffer.move_start, translated from the source. -/
def Buffer.move_start (b : Buffer) : Buffer :=
  { b with point := 0, view := b.view.adjust 0 }

/-- Buffer.move_end, translated from the source. The source computes
self.lines() - 1 on usize with no guard; when lines() is 0 that subtraction
underflows (an arithmetic fault in checked builds), modelled here as a checked
subtraction returning none. -/
def Buffer.move_end (b : Buffer) : Option Buffer :=
  if b.lines = 0 then
    none
  else
    some { b with point := b.data.length, view := b.view.adjust (b.lines - 1) }

/-- Buffer.delete_line, translated from the source: delete the line owning the
point, clamp the point to min(new length, old line start) and adjust. -/
def Buffer.delete_line (b : Buffer) : Option Buffer :=
  let r := b.data.line_at b.point
  match b.data.delete_line r.1 with
  | some d =>
    let p := max 0 (min d.length r.2.1)
    some { b with data := d, point := p, view := b.view.adjust (d.line_at p).1 }
  | none => none

/-- The PageDown key handler of the main loop, translated from the source:
repeat move_down a fixed number of times. -/
def pageDown : Nat → Buffer → Buffer
  | 0, b => b
  | n + 1, b => pageDown n b.move_down

/-- The PageUp key handler of the main loop, translated from the source:
repeat move_up a fixed number of times. -/
def pageUp : Nat → Buffer → Buffer
  | 0, b => b
  | n + 1, b => pageUp n b.move_up

/-- The length in characters of a list of lines with one newline after each
line: the sum of each line's length plus one. -/
def sumLens (ls : List (List Char)) : Nat :=
  (ls.map (fun l => l.length + 1)).sum

/-- The start offset of line i: the lengths plus newlines of the lines before
it. -/
def lineStart (ls : List (List Char)) (i : Nat) : Nat :=
  sumLens (ls.take i)

/-- The length of line i (0 when i is out of range). -/
def lineLen (ls : List (List Char)) (i : Nat) : Nat :=
  (ls.getD i []).length

/-- Well-formedness of a line store: the cached length is the sum of the
line lengths plus one newline per line minus one (which on Nat is also 0 for
no lines), and the cached line count is the number of lines. Text.from_file
establishes this and Text.delete_line preserves it. -/
def TextWf (t : Text) : Prop :=
  t.length = sumLens t.text - 1 ∧ t.newlines = t.text.length

instance (t : Text) : Decidable (TextWf t) :=
  inferInstanceAs (Decidable (t.length = sumLens t.text - 1 ∧ t.newlines = t.text.length))

/-- The line index the buffer's point resolves to. -/
def Buffer.resolvedLine (b : Buffer) : Nat :=
  (b.data.line_at b.point).1

/-- The column the buffer's point resolves to: point minus the owning line's
start (the renderer prints this plus one). -/
def Buffer.column (b : Buffer) : Nat :=
  b.point - (b.data.line_at b.point).2.1

/-- The viewport invariant: the resolved line of the point lies within
the window [y, y + height). -/
def viewOk (b : Buffer) : Prop :=
  b.view.y ≤ b.resolvedLine ∧ b.resolvedLine < b.view.y + b.view.height

instance (b : Buffer) : Decidable (viewOk b) :=
  inferInstanceAs (Decidable (_ ∧ _))

/-- A property of the value inside an Option, trivially true for none. -/
def optHolds {α : Type} (P : α → Prop) : Option α → Prop
  | none => True
  | some a => P a

instance {α : Type} (P : α → Prop) [DecidablePred P] :
    (o : Option α) → Decidable (optHolds P o)
  | none => isTrue trivial
  | some a => inferInstanceAs (Decidable (P a))

/-- The frame of a movement: the line store, the name, the path and the view
height of b2 agree with those of b, so only the point and the scroll origin
may have changed. -/
def frameEq (b b2 : Buffer) : Prop :=
  b2.data = b.data ∧ b2.name = b.name ∧ b2.path = b.path ∧ b2.view.height = b.view.height

/-- Follows the words of the spec, for comparison with Text.line_at: scan the
lines in order accumulating the running start, and return the first line
whose start + length is at least the offset, with its index and start; none
when no line qualifies. -/
def specLineAtAux (p : Nat) : List (List Char) → Nat → Nat → Option (Nat × Nat × Nat)
  | [], _, _ => none
  | l :: ls, line, start =>
    if p ≤ start + l.length then
      some (line, start, l.length)
    else
      specLineAtAux p ls (line + 1) (start + l.length + 1)

/-- Follows the words of the spec: the resolver as the spec describes it. -/
def Text.specLineAt (t : Text) (p : Nat) : Option (Nat × Nat × Nat) :=
  specLineAtAux p t.text 0 0

theorem sumLens_nil : sumLens [] = 0 := rfl

theorem sumLens_cons (l : List Char) (ls : List (List Char)) :
    sumLens (l :: ls) = l.length + 1 + sumLens ls := rfl

theorem one_le_sumLens (ls : List (List Char)) (h : ls ≠ []) : 1 ≤ sumLens ls := by
  cases ls with
  | nil => exact absurd rfl h
  | cons l t => rw [sumLens_cons]; omega

theorem lineLen_cons_succ (l : List Char) (ls : List (List Char)) (i : Nat) :
    lineLen (l :: ls) (i + 1) = lineLen ls i := rfl

theorem lineLen_cons_zero (l : List Char) (ls : List (List Char)) :
    lineLen (l :: ls) 0 = l.length := rfl

theorem eraseIdx_cons_zero (l : List Char) (ls : List (List Char)) :
    (l :: ls).eraseIdx 0 = ls := rfl

theorem eraseIdx_cons_succ (l : List Char) (ls : List (List Char)) (j : Nat) :
    (l :: ls).eraseIdx (j + 1) = l :: ls.eraseIdx j := rfl

/-- One step of the source scan on a nonempty list. -/
theorem lineAtAux_cons (p : Nat) (l : List Char) (ls : List (List Char))
    (line start len : Nat) :
    lineAtAux p (l :: ls) line start len =
      if start + l.length < p then
        lineAtAux p ls (line + 1) (start + l.length + 1) l.length
      else
        (line, start, l.length) := rfl

/-- One step of the spec scan on a nonempty list. -/
theorem specLineAtAux_cons (p : Nat) (l : List Char) (ls : List (List Char))
    (line start : Nat) :
    specLineAtAux p (l :: ls) line start =
      if p ≤ start + l.length then
        some (line, start, l.length)
      else
        specLineAtAux p ls (line + 1) (start + l.length + 1) := rfl

/-- Removing line i removes exactly its length plus one newline from the
total. -/
theorem sumLens_eraseIdx : ∀ (ls : List (List Char)) (i : Nat), i < ls.length →
    sumLens (ls.eraseIdx i) + (lineLen ls i + 1) = sumLens ls := by
  intro ls
  induction ls with
  | nil => intro i h; simp at h
  | cons l t ih =>
    intro i h
    cases i with
    | zero =>
      rw [eraseIdx_cons_zero, lineLen_cons_zero, sumLens_cons]
      omega
    | succ j =>
      have hj : j < t.length := by simpa using h
      have := ih j hj
      rw [eraseIdx_cons_succ, lineLen_cons_succ, sumLens_cons, sumLens_cons]
      omega

/-- View.adjust always lands the target line inside the window when the
window has at least one row. -/
theorem adjust_mem (v : View) (line : Nat) (hh : 1 ≤ v.height) :
    (v.adjust line).y ≤ line ∧ line < (v.adjust line).y + (v.adjust line).height := by
  unfold View.adjust
  split_ifs with h1 h2
  · simp
    omega
  · simp
    omega
  · omega

/-- View.adjust never changes the height. -/
theorem adjust_height (v : View) (line : Nat) : (v.adjust line).height = v.height := by
  unfold View.adjust
  split_ifs <;> rfl

/-- The scan is stable at the start and at the start plus length of the line
it resolves: both re-resolve to the very same triple. This is the tie-break:
the position at start + length still belongs to the same line. -/
theorem lineAtAux_stable : ∀ (ls : List (List Char)) (p line start len : Nat),
    start ≤ (lineAtAux p ls line start len).2.1 ∧
    lineAtAux (lineAtAux p ls line start len).2.1 ls line start len =
      lineAtAux p ls line start len ∧
    lineAtAux ((lineAtAux p ls line start len).2.1 + (lineAtAux p ls line start len).2.2)
        ls line start len = lineAtAux p ls line start len := by
  intro ls
  induction ls with
  | nil => intro p line start len; exact ⟨le_refl _, rfl, rfl⟩
  | cons l t ih =>
    intro p line start len
    by_cases h : start + l.length < p
    · obtain ⟨ha, hb, hc⟩ := ih p (line + 1) (start + l.length + 1) l.length
      rw [lineAtAux_cons, if_pos h]
      refine ⟨by omega, ?_, ?_⟩
      · rw [lineAtAux_cons, if_pos (by omega)]
        exact hb
      · rw [lineAtAux_cons, if_pos (by omega)]
        exact hc
    · rw [lineAtAux_cons, if_neg h]
      refine ⟨le_refl _, ?_, ?_⟩
      · dsimp only
        rw [lineAtAux_cons, if_neg (by omega)]
      · dsimp only
        rw [lineAtAux_cons, if_neg (by omega)]

/-- Resolving the very last position start + sumLens - 1 lands on the last
line. -/
theorem lineAtAux_last : ∀ (ls : List (List Char)) (line start len : Nat), ls ≠ [] →
    (lineAtAux (start + sumLens ls - 1) ls line start len).1 = line + ls.length - 1 := by
  intro ls
  induction ls with
  | nil => intro _ _ _ h; exact absurd rfl h
  | cons l t ih =>
    intro line start len _
    cases t with
    | nil =>
      have harg : start + sumLens [l] - 1 = start + l.length := by
        rw [sumLens_cons, sumLens_nil]
        omega
      rw [harg, lineAtAux_cons, if_neg (by omega)]
      simp
    | cons l2 t2 =>
      have hne : (l2 :: t2) ≠ ([] : List (List Char)) := by simp
      have hs : 1 ≤ sumLens (l2 :: t2) := one_le_sumLens _ hne
      have harg : start + sumLens (l :: l2 :: t2) - 1 =
          start + l.length + 1 + sumLens (l2 :: t2) - 1 := by
        rw [sumLens_cons]; omega
      rw [harg, lineAtAux_cons, if_pos (by omega),
        ih (line + 1) (start + l.length + 1) l.length hne]
      simp only [List.length_cons]
      omega

/-- Position 0 always resolves to line 0. -/
theorem line_at_zero (t : Text) : (t.line_at 0).1 = 0 := by
  unfold Text.line_at
  cases t.text with
  | nil => rfl
  | cons l ls => simp [lineAtAux]

/-- On positions within the text, the scan of the spec and the scan of the
source agree (and in particular the source's scan finds a line). -/
theorem specLineAtAux_eq : ∀ (ls : List (List Char)) (p line start len : Nat), ls ≠ [] →
    p ≤ start + sumLens ls - 1 →
    specLineAtAux p ls line start = some (lineAtAux p ls line start len) := by
  intro ls
  induction ls with
  | nil => intro _ _ _ _ h _; exact absurd rfl h
  | cons l t ih =>
    intro p line start len _ hp
    by_cases h : p ≤ start + l.length
    · rw [specLineAtAux_cons, lineAtAux_cons, if_pos h, if_neg (by omega)]
    · cases t with
      | nil =>
        exfalso
        rw [sumLens_cons, sumLens_nil] at hp
        omega
      | cons l2 t2 =>
        have hne : (l2 :: t2) ≠ ([] : List (List Char)) := by simp
        have hs : 1 ≤ sumLens (l2 :: t2) := one_le_sumLens _ hne
        rw [specLineAtAux_cons, lineAtAux_cons, if_neg h, if_pos (by omega)]
        apply ih p (line + 1) (start + l.length + 1) l.length hne
        rw [sumLens_cons] at hp
        omega

theorem eraseIdx_length : ∀ (ls : List (List Char)) (i : Nat), i < ls.length →
    (ls.eraseIdx i).length + 1 = ls.length := by
  intro ls
  induction ls with
  | nil => intro i h; simp at h
  | cons l t ih =>
    intro i h
    cases i with
    | zero => rw [eraseIdx_cons_zero]; rfl
    | succ j =>
      have hj : j < t.length := by simpa using h
      have := ih j hj
      rw [eraseIdx_cons_succ, List.length_cons, List.length_cons]
      omega

theorem get?_of_lt : ∀ (ls : List (List Char)) (i : Nat), i < ls.length →
    ∃ l, ls.get? i = some l ∧ l.length = lineLen ls i := by
  intro ls
  induction ls with
  | nil => intro i h; simp at h
  | cons l t ih =>
    intro i h
    cases i with
    | zero => exact ⟨l, rfl, rfl⟩
    | succ j =>
      have hj : j < t.length := by simpa using h
      obtain ⟨l2, hl2, he⟩ := ih j hj
      exact ⟨l2, hl2, by rw [he, lineLen_cons_succ]⟩

/-- On a well formed store and a valid index, Text.delete_line succeeds and
returns exactly the store with that line removed, the count decremented and
the length decremented by the line's length plus one (or zeroed when it was
the only line). -/
theorem delete_line_some (t : Text) (i : Nat) (hw : TextWf t) (hi : i < t.text.length) :
    t.delete_line i =
      some { length := if t.newlines = 1 then 0 else t.length - (lineLen t.text i + 1),
             newlines := t.newlines - 1,
             text := t.text.eraseIdx i } := by
  obtain ⟨hlen, hcnt⟩ := hw
  have h0 : 0 < t.newlines := by omega
  unfold Text.delete_line
  rw [if_pos h0]
  by_cases h1 : t.newlines = 1
  · rw [if_pos h1]
    dsimp only
    rw [if_pos hi, if_pos h1]
  · rw [if_neg h1]
    obtain ⟨l, hl, hle⟩ := get?_of_lt t.text i hi
    rw [hl]
    have he := sumLens_eraseIdx t.text i hi
    have hL := eraseIdx_length t.text i hi
    have hpos : 0 < (t.text.eraseIdx i).length := by omega
    have hs1 : 1 ≤ sumLens (t.text.eraseIdx i) :=
      one_le_sumLens _ (List.length_pos.mp hpos)
    have hsub : l.length + 1 ≤ t.length := by omega
    dsimp only
    rw [if_pos hsub]
    dsimp only
    rw [if_pos hi, if_neg h1, hle]

/-- Text.from_file establishes the store invariant. -/
theorem from_file_wf (ls : List (List Char)) : TextWf (Text.from_file ls) := by
  unfold Text.from_file TextWf sumLens
  refine ⟨?_, rfl⟩
  dsimp only
  split_ifs with h
  · omega
  · rfl

/-- Text.delete_line preserves the store invariant. -/
theorem delete_line_wf (t : Text) (i : Nat) (hw : TextWf t) (hi : i < t.text.length) :
    optHolds TextWf (t.delete_line i) := by
  rw [delete_line_some t i hw hi]
  obtain ⟨hlen, hcnt⟩ := hw
  have he := sumLens_eraseIdx t.text i hi
  have hL := eraseIdx_length t.text i hi
  simp only [optHolds, TextWf]
  constructor
  · by_cases h1 : t.newlines = 1
    · rw [if_pos h1]
      have hz : (t.text.eraseIdx i).length = 0 := by omega
      rw [List.length_eq_zero.mp hz, sumLens_nil]
    · rw [if_neg h1]
      have hpos : 0 < (t.text.eraseIdx i).length := by omega
      have hs1 : 1 ≤ sumLens (t.text.eraseIdx i) :=
        one_le_sumLens _ (List.length_pos.mp hpos)
      omega
  · omega

/-- The three line file of the spec's scenario: "abc", "de", "f". -/
def demoLines : List (List Char) := [['a', 'b', 'c'], ['d', 'e'], ['f']]

/-- A buffer loaded from the scenario file, point at 0, a 23 row view at the
top (one row of a 24 row terminal is reserved for the status bar). -/
def demoBuf : Buffer :=
  { name := [], path := [], point := 0, view := { y := 0, height := 23 },
    data := Text.from_file demoLines }

/-- C2: the Line Store invariant, that length equals the sum of the line
lengths plus one newline per line minus one (zero when there are no lines)
together with the cached line count being the number of lines, holds after
Text.from_file, and Text.delete_line on a valid line index of a well formed
store succeeds and preserves it. -/
theorem C2_store_invariant (ls : List (List Char)) (t : Text) (i : Nat)
    (hw : TextWf t) (hi : i < t.text.length) :
    TextWf (Text.from_file ls) ∧
    (t.delete_line i).isSome = true ∧
    optHolds TextWf (t.delete_line i) := by
  refine ⟨from_file_wf ls, ?_, delete_line_wf t i hw hi⟩
  rw [delete_line_some t i hw hi]
  rfl

/-- Witness for C2 at the scenario store and line index 1. -/
theorem C2_store_invariant_witness :
    (TextWf (Text.from_file demoLines) ∧ 1 < (Text.from_file demoLines).text.length) ∧
    (TextWf (Text.from_file demoLines) ∧
     ((Text.from_file demoLines).delete_line 1).isSome = true ∧
     optHolds TextWf ((Text.from_file demoLines).delete_line 1)) :=
  ⟨⟨by decide, by decide⟩,
   C2_store_invariant demoLines (Text.from_file demoLines) 1 (by decide) (by decide)⟩

/-- C3: on a well formed nonempty store and an offset within [0, length],
Text.line_at returns exactly what the spec's scan (first line, in order,
whose start + length is at least the offset) returns; in particular an offset
exactly at start + length resolves to that line, because the spec scan stops
there. -/
theorem C3_resolver_first_fit (t : Text) (p : Nat) (hw : TextWf t)
    (hne : t.text ≠ []) (hp : p ≤ t.length) :
    t.specLineAt p = some (t.line_at p) := by
  unfold Text.specLineAt Text.line_at
  apply specLineAtAux_eq t.text p 0 0 0 hne
  have := hw.1
  omega

/-- Witness for C3 at the scenario store and the offset 3, the newline
position at the end of the first line. -/
theorem C3_resolver_first_fit_witness :
    (TextWf (Text.from_file demoLines) ∧ (Text.from_file demoLines).text ≠ [] ∧
     3 ≤ (Text.from_file demoLines).length) ∧
    (Text.from_file demoLines).specLineAt 3 = some ((Text.from_file demoLines).line_at 3) :=
  ⟨⟨by decide, by decide, by decide⟩,
   C3_resolver_first_fit (Text.from_file demoLines) 3 (by decide) (by decide) (by decide)⟩

/-- C5: on a well formed store with a valid line index, Text.delete_line
succeeds, decrements the line count by exactly one, and reduces the length by
the deleted line's length plus one, except that with a single line the result
has zero lines and zero length. -/
theorem C5_delete_line_counts (t : Text) (i : Nat) (hw : TextWf t)
    (hi : i < t.text.length) :
    (t.delete_line i).isSome = true ∧
    optHolds (fun t2 =>
        t2.newlines + 1 = t.newlines ∧
        (t.newlines = 1 → t2.newlines = 0 ∧ t2.length = 0) ∧
        (2 ≤ t.newlines → t2.length + (lineLen t.text i + 1) = t.length))
      (t.delete_line i) := by
  rw [delete_line_some t i hw hi]
  obtain ⟨hlen, hcnt⟩ := hw
  have he := sumLens_eraseIdx t.text i hi
  have hL := eraseIdx_length t.text i hi
  refine ⟨rfl, ?_, ?_, ?_⟩
  · dsimp only
    omega
  · intro h1
    dsimp only
    rw [if_pos h1]
    omega
  · intro h2
    dsimp only
    rw [if_neg (by omega)]
    have hpos : 0 < (t.text.eraseIdx i).length := by omega
    have hs1 : 1 ≤ sumLens (t.text.eraseIdx i) :=
      one_le_sumLens _ (List.length_pos.mp hpos)
    omega

/-- Witness for C5 at the scenario store and line index 0. -/
theorem C5_delete_line_counts_witness :
    (TextWf (Text.from_file demoLines) ∧ 0 < (Text.from_file demoLines).text.length) ∧
    (((Text.from_file demoLines).delete_line 0).isSome = true ∧
     optHolds (fun t2 =>
        t2.newlines + 1 = (Text.from_file demoLines).newlines ∧
        ((Text.from_file demoLines).newlines = 1 → t2.newlines = 0 ∧ t2.length = 0) ∧
        (2 ≤ (Text.from_file demoLines).newlines →
          t2.length + (lineLen (Text.from_file demoLines).text 0 + 1) =
            (Text.from_file demoLines).length))
      ((Text.from_file demoLines).delete_line 0)) :=
  ⟨⟨by decide, by decide⟩,
   C5_delete_line_counts (Text.from_file demoLines) 0 (by decide) (by decide)⟩

/-- C6 as the spec states it is false on the code: the store loaded from
"abc", "de", "f" has length 8, not 7, and after move_end_of_line and
move_down the point 4 is on line 1 ("de"), so delete_line removes "de", not
"abc", leaving length 5 and the point at 4, not at 0. -/
theorem C6_scenario_counterexample :
    ¬ ((Text.from_file demoLines).length = 7 ∧
       demoBuf.move_end_of_line.point = 3 ∧
       demoBuf.move_end_of_line.move_down.point = 4 ∧
       (demoBuf.move_end_of_line.move_down.delete_line).map
           (fun b => (b.data.text, b.data.length, b.point)) =
         some ([['d', 'e'], ['f']], 4, 0)) := by
  decide

/-- C6 amended to what the code computes: the loaded length is 8,
move_end_of_line puts the point at 3, move_down at 4 (the start of "de"),
and delete_line removes line 1 ("de", the line containing the point),
leaving lines "abc", "f" with total length 5, line count 2, and the point
clamped to min(new length, old line start) = 4. -/
theorem C6_scenario_amended :
    (Text.from_file demoLines).length = 8 ∧
    demoBuf.move_end_of_line.point = 3 ∧
    demoBuf.move_end_of_line.move_down.point = 4 ∧
    (demoBuf.move_end_of_line.move_down.delete_line).map
        (fun b => (b.data.text, b.data.length, b.data.newlines, b.point)) =
      some ([['a', 'b', 'c'], ['f']], 5, 2, 4) := by
  decide

/-- C7: View.adjust implements exactly the spec's scroll policy: target above
the window scrolls the origin up to the target, target at or below the end of
the window scrolls so the target is the last visible row, anything else
leaves the origin unchanged, and the height never changes. -/
theorem C7_adjust_policy (v : View) (line : Nat) :
    v.adjust line = { y := if line < v.y then line
                           else if line ≥ v.y + v.height then line - v.height + 1
                           else v.y,
                      height := v.height } := by
  unfold View.adjust
  split_ifs <;> rfl

/-- Witness for C7: the spec's own scenario, height 3 and line 9 give
origin 9 - 3 + 1 = 7. -/
theorem C7_adjust_policy_witness :
    View.adjust ⟨5, 3⟩ 9 = { y := 7, height := 3 } := by
  rw [C7_adjust_policy]
  rfl

/-- C8: from an interior point (strictly between 0 and the total length),
move_right followed by move_left returns the point to where it started. -/
theorem C8_right_left_inverse (b : Buffer) (h0 : 0 < b.point)
    (h1 : b.point < b.data.length) :
    b.move_right.move_left.point = b.point := by
  unfold Buffer.move_right Buffer.move_left
  dsimp only
  split_ifs with h <;> omega

/-- Witness for C8 at the scenario buffer with the point at 1. -/
theorem C8_right_left_inverse_witness :
    (0 < ({ demoBuf with point := 1 } : Buffer).point ∧
     ({ demoBuf with point := 1 } : Buffer).point <
       ({ demoBuf with point := 1 } : Buffer).data.length) ∧
    ({ demoBuf with point := 1 } : Buffer).move_right.move_left.point =
      ({ demoBuf with point := 1 } : Buffer).point :=
  ⟨⟨by decide, by decide⟩,
   C8_right_left_inverse { demoBuf with point := 1 } (by decide) (by decide)⟩

/-- A buffer loaded from an empty file: no lines, length 0, point 0. -/
def emptyBuf : Buffer :=
  { name := [], path := [], point := 0, view := { y := 0, height := 23 },
    data := Text.from_file [] }

/-- Iterating move_down on a buffer of length 0 keeps the point at 0. -/
theorem pageDown_empty : ∀ (n : Nat) (b : Buffer), b.data.length = 0 → b.point = 0 →
    (pageDown n b).point = 0 := by
  intro n
  induction n with
  | zero => intro b _ hp; exact hp
  | succ m ih =>
    intro b h hp
    show (pageDown m b.move_down).point = 0
    apply ih
    · exact h
    · show b.move_down.point = 0
      unfold Buffer.move_down
      dsimp only
      rw [h]
      simp

/-- Iterating move_up on a buffer with no lines keeps the point at 0. -/
theorem pageUp_empty : ∀ (n : Nat) (b : Buffer), b.data.text = [] → b.point = 0 →
    (pageUp n b).point = 0 := by
  intro n
  induction n with
  | zero => intro b _ hp; exact hp
  | succ m ih =>
    intro b h hp
    show (pageUp m b.move_up).point = 0
    apply ih
    · exact h
    · show b.move_up.point = 0
      unfold Buffer.move_up Text.line_at
      dsimp only
      rw [h]
      simp [lineAtAux]

/-- C1: on a buffer with zero lines every movement leaves the point at 0 and
stays within bounds, except move_end: the source computes lines() - 1 with
lines() equal to 0, an underflowing usize subtraction, so move_end faults
(none) instead of completing. -/
theorem C1_empty_movements (b : Buffer) (n : Nat) (hempty : b.data.text = [])
    (hw : TextWf b.data) (hpt : b.point = 0) :
    b.move_right.point = 0 ∧ b.move_left.point = 0 ∧ b.move_down.point = 0 ∧
    b.move_up.point = 0 ∧ b.move_start_of_line.point = 0 ∧
    b.move_end_of_line.point = 0 ∧ b.move_start.point = 0 ∧
    (pageDown n b).point = 0 ∧ (pageUp n b).point = 0 ∧
    b.move_end = none := by
  have hlen : b.data.length = 0 := by
    have h := hw.1
    rw [hempty, sumLens_nil] at h
    omega
  have hcnt : b.data.newlines = 0 := by
    have h := hw.2
    rw [hempty] at h
    simpa using h
  refine ⟨?_, ?_, ?_, ?_, ?_, ?_, rfl,
    pageDown_empty n b hlen hpt, pageUp_empty n b hempty hpt, ?_⟩
  · unfold Buffer.move_right
    dsimp only
    rw [hlen]
    simp
  · unfold Buffer.move_left
    dsimp only
    rw [hpt]
    simp
  · unfold Buffer.move_down
    dsimp only
    rw [hlen]
    simp
  · unfold Buffer.move_up Text.line_at
    dsimp only
    rw [hempty]
    simp [lineAtAux]
  · unfold Buffer.move_start_of_line Text.line_at
    dsimp only
    rw [hempty]
    simp [lineAtAux]
  · unfold Buffer.move_end_of_line Text.line_at
    dsimp only
    rw [hempty]
    simp [lineAtAux]
  · unfold Buffer.move_end Buffer.lines
    rw [hcnt]
    rfl

/-- Witness for C1 at the buffer loaded from an empty file, with 24
repetitions for the page movements (a 24 row terminal). -/
theorem C1_empty_movements_witness :
    (emptyBuf.data.text = [] ∧ TextWf emptyBuf.data ∧ emptyBuf.point = 0) ∧
    (emptyBuf.move_right.point = 0 ∧ emptyBuf.move_left.point = 0 ∧
     emptyBuf.move_down.point = 0 ∧ emptyBuf.move_up.point = 0 ∧
     emptyBuf.move_start_of_line.point = 0 ∧ emptyBuf.move_end_of_line.point = 0 ∧
     emptyBuf.move_start.point = 0 ∧ (pageDown 24 emptyBuf).point = 0 ∧
     (pageUp 24 emptyBuf).point = 0 ∧ emptyBuf.move_end = none) :=
  ⟨⟨by decide, by decide, by decide⟩,
   C1_empty_movements emptyBuf 24 (by decide) (by decide) (by decide)⟩

/-- The resolved line does not change when the point moves to the start of
its own line. -/
theorem resolvedLine_sol (b : Buffer) :
    b.move_start_of_line.resolvedLine = b.resolvedLine := by
  obtain ⟨_, hb2, _⟩ := lineAtAux_stable b.data.text b.point 0 0 0
  unfold Buffer.move_start_of_line Buffer.resolvedLine Text.line_at
  dsimp only
  rw [hb2]

/-- The resolved line does not change when the point moves to the end of its
own line: this is the tie-break, the position start + length still belongs to
the same line. -/
theorem resolvedLine_eol (b : Buffer) :
    b.move_end_of_line.resolvedLine = b.resolvedLine := by
  obtain ⟨_, _, hc⟩ := lineAtAux_stable b.data.text b.point 0 0 0
  unfold Buffer.move_end_of_line Buffer.resolvedLine Text.line_at
  dsimp only
  rw [hc]

/-- C9: move_end_of_line then move_start_of_line lands on the same resolved
line as the starting point, at column 0. -/
theorem C9_eol_sol (b : Buffer) (hne : b.data.text ≠ []) :
    b.move_end_of_line.move_start_of_line.resolvedLine = b.resolvedLine ∧
    b.move_end_of_line.move_start_of_line.column = 0 := by
  obtain ⟨_, hb2, hc⟩ := lineAtAux_stable b.data.text b.point 0 0 0
  unfold Buffer.move_end_of_line Buffer.move_start_of_line Buffer.resolvedLine
    Buffer.column Text.line_at
  dsimp only
  rw [hc, hb2]
  exact ⟨rfl, Nat.sub_self _⟩

/-- Witness for C9 at the scenario buffer. -/
theorem C9_eol_sol_witness :
    demoBuf.data.text ≠ [] ∧
    (demoBuf.move_end_of_line.move_start_of_line.resolvedLine = demoBuf.resolvedLine ∧
     demoBuf.move_end_of_line.move_start_of_line.column = 0) :=
  ⟨by decide, C9_eol_sol demoBuf (by decide)⟩

/-- C10: the movements leave the line store (so the text contents, the total
length and the line count), the name, the path and the view height unchanged;
only the point and the scroll origin may change. move_end does so too
whenever it completes. -/
theorem C10_movement_frame (b : Buffer) :
    frameEq b b.move_right ∧ frameEq b b.move_left ∧ frameEq b b.move_down ∧
    frameEq b b.move_up ∧ frameEq b b.move_start_of_line ∧
    frameEq b b.move_end_of_line ∧ frameEq b b.move_start ∧
    optHolds (frameEq b) b.move_end := by
  refine ⟨⟨rfl, rfl, rfl, adjust_height _ _⟩, ⟨rfl, rfl, rfl, adjust_height _ _⟩,
    ⟨rfl, rfl, rfl, adjust_height _ _⟩, ⟨rfl, rfl, rfl, adjust_height _ _⟩,
    ⟨rfl, rfl, rfl, rfl⟩, ⟨rfl, rfl, rfl, rfl⟩, ⟨rfl, rfl, rfl, adjust_height _ _⟩, ?_⟩
  unfold Buffer.move_end
  split_ifs
  · trivial
  · exact ⟨rfl, rfl, rfl, adjust_height _ _⟩

/-- Witness for C10 at the scenario buffer. -/
theorem C10_movement_frame_witness :
    frameEq demoBuf demoBuf.move_right ∧ frameEq demoBuf demoBuf.move_left ∧
    frameEq demoBuf demoBuf.move_down ∧ frameEq demoBuf demoBuf.move_up ∧
    frameEq demoBuf demoBuf.move_start_of_line ∧
    frameEq demoBuf demoBuf.move_end_of_line ∧ frameEq demoBuf demoBuf.move_start ∧
    optHolds (frameEq demoBuf) demoBuf.move_end :=
  C10_movement_frame demoBuf

/-- C4: after each movement the viewport invariant holds, the resolved line
of the point lies within [origin, origin + height): for the adjusting
movements outright when the view has at least one row; for
move_start_of_line and move_end_of_line, which do not adjust, because the
resolved line does not change, so it holds when it held before; for move_end
and delete_line whenever they complete. -/
theorem C4_viewport_invariant (b : Buffer) (hh : 1 ≤ b.view.height)
    (hw : TextWf b.data) (hv : viewOk b) :
    viewOk b.move_right ∧ viewOk b.move_left ∧ viewOk b.move_down ∧
    viewOk b.move_up ∧ viewOk b.move_start ∧ viewOk b.move_start_of_line ∧
    viewOk b.move_end_of_line ∧ optHolds viewOk b.move_end ∧
    optHolds viewOk b.delete_line := by
  have hstep : ∀ p : Nat,
      viewOk { b with point := p, view := b.view.adjust (b.data.line_at p).1 } := by
    intro p
    unfold viewOk Buffer.resolvedLine
    dsimp only
    exact adjust_mem b.view _ hh
  refine ⟨hstep _, hstep _, hstep _, hstep _, ?_, ?_, ?_, ?_, ?_⟩
  · -- move_start adjusts to 0, and position 0 resolves to line 0
    have h0 := line_at_zero b.data
    unfold viewOk Buffer.resolvedLine Buffer.move_start
    dsimp only
    rw [h0]
    exact adjust_mem b.view 0 hh
  · -- move_start_of_line keeps the view and the resolved line
    simp only [viewOk] at hv ⊢
    rw [resolvedLine_sol]
    exact hv
  · -- move_end_of_line keeps the view and the resolved line
    simp only [viewOk] at hv ⊢
    rw [resolvedLine_eol]
    exact hv
  · -- move_end, when it completes, adjusts to the resolved line of length
    unfold Buffer.move_end
    split_ifs with hl
    · trivial
    · have hne : b.data.text ≠ [] := by
        intro hnil
        apply hl
        unfold Buffer.lines
        rw [hw.2, hnil]
        rfl
      have hlast : (b.data.line_at b.data.length).1 = b.data.text.length - 1 := by
        unfold Text.line_at
        have h2 := lineAtAux_last b.data.text 0 0 0 hne
        rw [hw.1]
        simpa using h2
      have hlines : b.lines - 1 = b.data.text.length - 1 := by
        unfold Buffer.lines
        rw [hw.2]
      simp only [optHolds, viewOk, Buffer.resolvedLine]
      rw [hlast, ← hlines]
      exact adjust_mem b.view _ hh
  · -- delete_line, when it completes, adjusts to the new resolved line
    rcases hdl : b.data.delete_line (b.data.line_at b.point).1 with _ | d
    · simp only [Buffer.delete_line, hdl]
      trivial
    · simp only [Buffer.delete_line, hdl, optHolds, viewOk, Buffer.resolvedLine]
      exact adjust_mem b.view _ hh

/-- Witness for C4 at the scenario buffer. -/
theorem C4_viewport_invariant_witness :
    (1 ≤ demoBuf.view.height ∧ TextWf demoBuf.data ∧ viewOk demoBuf) ∧
    (viewOk demoBuf.move_right ∧ viewOk demoBuf.move_left ∧
     viewOk demoBuf.move_down ∧ viewOk demoBuf.move_up ∧
     viewOk demoBuf.move_start ∧ viewOk demoBuf.move_start_of_line ∧
     viewOk demoBuf.move_end_of_line ∧ optHolds viewOk demoBuf.move_end ∧
     optHolds viewOk demoBuf.delete_line) :=
  ⟨⟨by decide, by decide, by decide⟩,
   C4_viewport_invariant demoBuf (by decide) (by decide) (by decide)⟩

end MiniRs
